import Mathlib

/-!
Shallow embedding of the boring_generic_file_filter repository (src/main.py).

The Python `is_satisfied` methods of the leaf specifications return `True`
when a term matches and otherwise fall off the end of the function, which in
Python yields `None`.  We therefore model `is_satisfied` as returning
`Option Bool`, where `none` stands for Python's implicit `None` and
`some b` for an explicit boolean.  Python truthiness (as used by `all`,
`any`, `not` and `if`) maps `none` to `false`.
-/

namespace BGFF

/-- Python truthiness of an `is_satisfied` result: `None` is falsy. -/
def truthy (o : Option Bool) : Bool := o.getD false

/-- ASCII lowering of one character, modelling `str.lower` on the ASCII
range used by this repository. -/
def asciiLowerChar (c : Char) : Char :=
  if 'A' ≤ c ∧ c ≤ 'Z' then Char.ofNat (c.toNat + 32) else c

/-- Lowering of a whole string (as a character list), `str.lower`. -/
def lowerStr (s : List Char) : List Char := s.map asciiLowerChar

/-- `leadsWith needle hay` is true when `needle` occurs at the start of
`hay` (prefix test used by substring search). -/
def leadsWith : List Char → List Char → Bool
  | [], _ => true
  | _ :: _, [] => false
  | a :: as, b :: bs => a == b && leadsWith as bs

/-- `containsSub hay needle` models Python's `needle in hay` substring
test on strings. -/
def containsSub : List Char → List Char → Bool
  | [], needle => needle.isEmpty
  | c :: t, needle => leadsWith needle (c :: t) || containsSub t needle

/-- A FileRecord is the dict built by `RecursiveFileLister.extract_file_info`. -/
structure FileRecord where
  file_path : String
  file_name : String
  extension : String
  file_base_name : String
  folder_names : List String
  deriving Repr, DecidableEq

/-- The specification tree: leaf predicates `FileName`, `FolderNames`,
`Extension` and the combinators `AndSpecification`, `OrSpecification`,
`NotSpecification` from src/main.py. -/
inductive Spec where
  | fileName (terms : List String)
  | folderNames (terms : List String)
  | extension (terms : List String)
  | and (children : List Spec)
  | or (children : List Spec)
  | not (child : Spec)
  deriving Repr

/-- The matching loop shared by `FileName.is_satisfied` and
`Extension.is_satisfied`: return `True` at the first term contained in the
(lowercased) field, otherwise fall through to `None`. -/
def firstMatch (hay : List Char) : List String → Option Bool
  | [] => none
  | t :: ts => if containsSub hay t.data then some true else firstMatch hay ts

/-- The `any(x in y for x in self.folder_name for y in item_folder_names)`
test of `FolderNames.is_satisfied`: the terms are used as given, the folder
segments are lowercased. -/
def folderHit (terms : List String) (folders : List String) : Bool :=
  terms.any (fun x => folders.any (fun y => containsSub (lowerStr y.data) x.data))

mutual

/-- `is_satisfied` for every node of the tree.  Leaves return `some true`
or `none` (Python's implicit `None`); the combinators `all`/`any`/`not`
coerce child results through truthiness and return a real boolean. -/
def isSatisfied : Spec → FileRecord → Option Bool
  | .fileName terms, r => firstMatch (lowerStr r.file_name.data) terms
  | .folderNames terms, r =>
      if folderHit terms r.folder_names then some true else none
  | .extension terms, r => firstMatch (lowerStr r.extension.data) terms
  | .and cs, r => some (allSat cs r)
  | .or cs, r => some (anySat cs r)
  | .not s, r => some (!(truthy (isSatisfied s r)))
termination_by s _ => sizeOf s

/-- `all(spec.is_satisfied(item) for spec in self.args)`. -/
def allSat : List Spec → FileRecord → Bool
  | [], _ => true
  | c :: cs, r => truthy (isSatisfied c r) && allSat cs r
termination_by cs _ => sizeOf cs

/-- `any(spec.is_satisfied(item) for spec in self.args)`. -/
def anySat : List Spec → FileRecord → Bool
  | [], _ => false
  | c :: cs, r => truthy (isSatisfied c r) || anySat cs r
termination_by cs _ => sizeOf cs

end

/-- Loop of `SubjectFilter.filter`: walks the items, counts and yields the
satisfied ones; the pair is (yielded sequence, count printed at the end). -/
def filterAux (spec : Spec) : List FileRecord → Nat → List FileRecord × Nat
  | [], count => ([], count)
  | i :: rest, count =>
      if truthy (isSatisfied spec i) then
        let p := filterAux spec rest (count + 1)
        (i :: p.1, p.2)
      else filterAux spec rest count

/-- `SubjectFilter.filter(items, spec)`: the lazily yielded records paired
with the count reported after full consumption. -/
def SubjectFilter.filter (items : List FileRecord) (spec : Spec) :
    List FileRecord × Nat :=
  filterAux spec items 0

/-- `file_name.split('.', 1)`: `none` models the ValueError raised by the
unpacking when the name has no dot. -/
def splitFirstDot : List Char → Option (List Char × List Char)
  | [] => none
  | c :: t =>
      if c == '.' then some ([], t)
      else
        match splitFirstDot t with
        | none => none
        | some (a, b) => some (c :: a, b)

/-- `os.path.basename` for POSIX paths: everything after the last slash. -/
def basenameChars (p : List Char) : List Char :=
  (p.reverse.takeWhile (fun c => c != '/')).reverse

/-- Strip trailing slashes, `head.rstrip(sep)`. -/
def rstripSlash (l : List Char) : List Char :=
  (l.reverse.dropWhile (fun c => c == '/')).reverse

/-- `os.path.dirname` for POSIX paths: the part up to the last slash, with
trailing slashes stripped unless the head is empty or all slashes. -/
def dirnameChars (p : List Char) : List Char :=
  let head := (p.reverse.dropWhile (fun c => c != '/')).reverse
  if head.isEmpty || head.all (fun c => c == '/') then head else rstripSlash head

/-- `str.split('/')`: split into (possibly empty) segments. -/
def splitOnSlash : List Char → List (List Char)
  | [] => [[]]
  | c :: t =>
      if c == '/' then [] :: splitOnSlash t
      else
        match splitOnSlash t with
        | [] => [[c]]
        | s :: rest => (c :: s) :: rest

/-- `RecursiveFileLister.extract_file_info`: `none` models the hard failure
(ValueError) when the file name contains no dot. -/
def extract_file_info (file_path : String) : Option FileRecord :=
  let fn := basenameChars file_path.data
  match splitFirstDot fn with
  | none => none
  | some (base, ext) =>
      let folders :=
        (splitOnSlash (dirnameChars file_path.data)).filter (fun x => !x.isEmpty)
      some {
        file_path := file_path
        file_name := String.mk fn
        extension := String.mk ext
        file_base_name := String.mk base
        folder_names := folders.map String.mk
      }

/-- The spec's reading of `NameContains(terms...)`: both the file name and
the terms are lowercased before the substring test. -/
def specNameContains (terms : List String) (r : FileRecord) : Bool :=
  terms.any (fun t => containsSub (lowerStr r.file_name.data) (lowerStr t.data))

/-- The spec's reading of `ExtensionContains(terms...)`: both the extension
and the terms are lowercased before the substring test. -/
def specExtContains (terms : List String) (r : FileRecord) : Bool :=
  terms.any (fun t => containsSub (lowerStr r.extension.data) (lowerStr t.data))

/-- The spec's reading of `FolderContains(terms...)`: case-insensitive
any-term against any-segment match (both sides lowercased). -/
def specFolderContains (terms : List String) (r : FileRecord) : Bool :=
  terms.any (fun t =>
    r.folder_names.any (fun y => containsSub (lowerStr y.data) (lowerStr t.data)))

/-- Whether a character list contains a dot (the separator of
`file_name.split('.', 1)`). -/
def hasDot : List Char → Bool
  | [] => false
  | c :: t => c == '.' || hasDot t

theorem truthy_some (b : Bool) : truthy (some b) = b := rfl

theorem truthy_none : truthy none = false := rfl

theorem truthy_eq_true {o : Option Bool} : truthy o = true ↔ o = some true := by
  cases o with
  | none => simp [truthy]
  | some b => cases b <;> simp [truthy]

theorem isSat_fileName (terms : List String) (r : FileRecord) :
    isSatisfied (Spec.fileName terms) r = firstMatch (lowerStr r.file_name.data) terms := by
  rw [isSatisfied]

theorem isSat_folderNames (terms : List String) (r : FileRecord) :
    isSatisfied (Spec.folderNames terms) r =
      if folderHit terms r.folder_names then some true else none := by
  rw [isSatisfied]

theorem isSat_extension (terms : List String) (r : FileRecord) :
    isSatisfied (Spec.extension terms) r = firstMatch (lowerStr r.extension.data) terms := by
  rw [isSatisfied]

theorem isSat_and (cs : List Spec) (r : FileRecord) :
    isSatisfied (Spec.and cs) r = some (allSat cs r) := by
  rw [isSatisfied]

theorem isSat_or (cs : List Spec) (r : FileRecord) :
    isSatisfied (Spec.or cs) r = some (anySat cs r) := by
  rw [isSatisfied]

theorem isSat_not (s : Spec) (r : FileRecord) :
    isSatisfied (Spec.not s) r = some (!(truthy (isSatisfied s r))) := by
  rw [isSatisfied]

theorem allSat_nil (r : FileRecord) : allSat [] r = true := by rw [allSat]

theorem allSat_cons (c : Spec) (cs : List Spec) (r : FileRecord) :
    allSat (c :: cs) r = (truthy (isSatisfied c r) && allSat cs r) := by rw [allSat]

theorem anySat_nil (r : FileRecord) : anySat [] r = false := by rw [anySat]

theorem anySat_cons (c : Spec) (cs : List Spec) (r : FileRecord) :
    anySat (c :: cs) r = (truthy (isSatisfied c r) || anySat cs r) := by rw [anySat]

theorem allSat_eq_true (cs : List Spec) (r : FileRecord) :
    allSat cs r = true ↔ ∀ c ∈ cs, isSatisfied c r = some true := by
  induction cs with
  | nil => simp [allSat_nil]
  | cons c cs ih => simp [allSat_cons, truthy_eq_true, ih]

theorem anySat_eq_true (cs : List Spec) (r : FileRecord) :
    anySat cs r = true ↔ ∃ c ∈ cs, isSatisfied c r = some true := by
  induction cs with
  | nil => simp [anySat_nil]
  | cons c cs ih => simp [anySat_cons, truthy_eq_true, ih]

theorem firstMatch_truthy (hay : List Char) (ts : List String) :
    truthy (firstMatch hay ts) = ts.any (fun t => containsSub hay t.data) := by
  induction ts with
  | nil => simp [firstMatch, truthy]
  | cons t ts ih =>
    cases h : containsSub hay t.data <;>
      simp [firstMatch, h, ih, truthy_some]

theorem strMkApp (a b : List Char) : String.mk a ++ String.mk b = String.mk (a ++ b) := rfl

theorem strMkDotApp (base ext : List Char) :
    String.mk base ++ "." ++ String.mk ext = String.mk (base ++ '.' :: ext) := by
  rw [show ("." : String) = String.mk ['.'] from rfl, strMkApp, strMkApp]
  simp

theorem filterAux_eq (spec : Spec) (items : List FileRecord) (n : Nat) :
    filterAux spec items n =
      (items.filter (fun i => truthy (isSatisfied spec i)),
       n + (items.filter (fun i => truthy (isSatisfied spec i))).length) := by
  induction items generalizing n with
  | nil => simp [filterAux]
  | cons i rest ih =>
    cases h : truthy (isSatisfied spec i)
    · simp [filterAux, h, ih, List.filter_cons]
    · simp [filterAux, h, ih, List.filter_cons]
      omega

theorem splitFirstDot_none (l : List Char) :
    splitFirstDot l = none ↔ hasDot l = false := by
  induction l with
  | nil => simp [splitFirstDot, hasDot]
  | cons c t ih =>
    cases hc : (c == '.') with
    | true => simp [splitFirstDot, hasDot, hc]
    | false =>
      cases hs : splitFirstDot t with
      | none => simp [splitFirstDot, hasDot, hc, hs, ih.mp hs]
      | some pr =>
        obtain ⟨a, b⟩ := pr
        have ht : hasDot t = true := by
          cases hd : hasDot t
          · exact absurd (ih.mpr hd) (by simp [hs])
          · rfl
        simp [splitFirstDot, hasDot, hc, hs, ht]

theorem splitFirstDot_append :
    ∀ (l a b : List Char), splitFirstDot l = some (a, b) → l = a ++ '.' :: b := by
  intro l
  induction l with
  | nil => intro a b h; simp [splitFirstDot] at h
  | cons c t ih =>
    intro a b h
    rw [splitFirstDot] at h
    cases hc : (c == '.') with
    | true =>
      have hceq : c = '.' := by simpa using hc
      simp only [hc, if_true] at h
      have h2 := Option.some.inj h
      injection h2 with ha hb
      subst ha
      subst hb
      simp [hceq]
    | false =>
      simp only [hc, Bool.false_eq_true, if_false] at h
      cases hs : splitFirstDot t with
      | none => rw [hs] at h; simp at h
      | some pr =>
        obtain ⟨a2, b2⟩ := pr
        rw [hs] at h
        have h2 := Option.some.inj h
        injection h2 with ha hb
        subst ha
        subst hb
        rw [ih a2 b2 hs]
        simp

/-- C1: `AndSpecification(c1..cN).is_satisfied(R)` is `True` iff every child
evaluates to `True`; `OrSpecification` iff at least one child does;
`NotSpecification(c)` iff the child does not. -/
theorem c1_combinator_semantics (cs : List Spec) (c : Spec) (r : FileRecord) :
    (isSatisfied (Spec.and cs) r = some true ↔ ∀ ci ∈ cs, isSatisfied ci r = some true)
    ∧ (isSatisfied (Spec.or cs) r = some true ↔ ∃ ci ∈ cs, isSatisfied ci r = some true)
    ∧ (isSatisfied (Spec.not c) r = some true ↔ ¬ isSatisfied c r = some true) := by
  refine ⟨?_, ?_, ?_⟩
  · rw [isSat_and]
    simp [allSat_eq_true]
  · rw [isSat_or]
    simp [anySat_eq_true]
  · rw [isSat_not]
    constructor
    · intro hsome hc
      rw [hc] at hsome
      simp [truthy_some] at hsome
    · intro hnc
      have h : truthy (isSatisfied c r) = false := by
        cases ht : truthy (isSatisfied c r)
        · rfl
        · exact absurd (truthy_eq_true.mp ht) hnc
      simp [h]

/-- C3 counterexample: with an uppercase construction term `"A"` (resp.
`"B"`) and a record whose file name is `"a.b"` and extension `"b"`, the
spec's case-insensitive reading matches, but the code does not, because the
terms are never lowercased. -/
theorem c3_counterexample :
    specNameContains ["A"] ⟨"/a.b", "a.b", "b", "a", []⟩ = true
    ∧ truthy (isSatisfied (Spec.fileName ["A"]) ⟨"/a.b", "a.b", "b", "a", []⟩) = false
    ∧ specExtContains ["B"] ⟨"/a.b", "a.b", "b", "a", []⟩ = true
    ∧ truthy (isSatisfied (Spec.extension ["B"]) ⟨"/a.b", "a.b", "b", "a", []⟩) = false := by
  refine ⟨by decide, ?_, by decide, ?_⟩
  · rw [isSat_fileName]; decide
  · rw [isSat_extension]; decide

/-- C3 amended: `FileName` is satisfied iff the lowercased file name
contains some construction term exactly as given, and `Extension` likewise
for the lowercased extension; the record field is lowercased but the terms
are not. -/
theorem c3_name_ext_matching (terms : List String) (r : FileRecord) :
    truthy (isSatisfied (Spec.fileName terms) r)
      = terms.any (fun t => containsSub (lowerStr r.file_name.data) t.data)
    ∧ truthy (isSatisfied (Spec.extension terms) r)
      = terms.any (fun t => containsSub (lowerStr r.extension.data) t.data) := by
  rw [isSat_fileName, isSat_extension]
  exact ⟨firstMatch_truthy _ _, firstMatch_truthy _ _⟩

/-- C4 counterexample: with construction term `"A"` and folder segment
`"A"`, the spec's case-insensitive reading matches but the code does not
(the term is never lowercased); and on no match the primitive returns
`None`, not the boolean `False`. -/
theorem c4_counterexample :
    specFolderContains ["A"] ⟨"/A/x.y", "x.y", "y", "x", ["A"]⟩ = true
    ∧ truthy (isSatisfied (Spec.folderNames ["A"]) ⟨"/A/x.y", "x.y", "y", "x", ["A"]⟩) = false
    ∧ isSatisfied (Spec.folderNames ["zz"]) ⟨"/A/x.y", "x.y", "y", "x", ["A"]⟩ = none := by
  refine ⟨by decide, ?_, ?_⟩
  · rw [isSat_folderNames]; decide
  · rw [isSat_folderNames]; decide

/-- C4 amended: `FolderNames` is satisfied iff some construction term, as
given, is a substring of some lowercased folder segment (any-any
cross-product); when no segment matches any term the result is `None`
(falsy), not an explicit `False`. -/
theorem c4_folder_matching (terms : List String) (r : FileRecord) :
    truthy (isSatisfied (Spec.folderNames terms) r)
      = terms.any (fun t => r.folder_names.any
          (fun y => containsSub (lowerStr y.data) t.data))
    ∧ (terms.any (fun t => r.folder_names.any
          (fun y => containsSub (lowerStr y.data) t.data)) = false →
        isSatisfied (Spec.folderNames terms) r = none) := by
  rw [isSat_folderNames]
  unfold folderHit
  constructor
  · cases h : terms.any (fun t => r.folder_names.any
        (fun y => containsSub (lowerStr y.data) t.data)) <;> simp [h, truthy_some, truthy_none]
  · intro h
    simp [h]

/-- C4 witness: the amended theorem applied to term list `["zz"]` and a
record with folder segment `"a"`. -/
theorem c4_folder_matching_witness :
    isSatisfied (Spec.folderNames ["zz"]) ⟨"/a/x.y", "x.y", "y", "x", ["a"]⟩ = none :=
  (c4_folder_matching ["zz"] ⟨"/a/x.y", "x.y", "y", "x", ["a"]⟩).2 (by decide)

/-- C6: on a record matched by none of the construction terms, each of the
three primitives falls off the end of `is_satisfied` and returns Python's
`None` (modelled `none`), not the explicit boolean `False`. -/
theorem c6_none_on_no_match :
    isSatisfied (Spec.fileName ["zz"]) ⟨"/a/y.md", "y.md", "md", "y", ["a"]⟩ = none
    ∧ isSatisfied (Spec.folderNames ["zz"]) ⟨"/a/y.md", "y.md", "md", "y", ["a"]⟩ = none
    ∧ isSatisfied (Spec.extension ["zz"]) ⟨"/a/y.md", "y.md", "md", "y", ["a"]⟩ = none
    ∧ isSatisfied (Spec.fileName ["zz"]) ⟨"/a/y.md", "y.md", "md", "y", ["a"]⟩ ≠ some false := by
  refine ⟨?_, ?_, ?_, ?_⟩
  · rw [isSat_fileName]; decide
  · rw [isSat_folderNames]; decide
  · rw [isSat_extension]; decide
  · rw [isSat_fileName]; decide

/-- C7 counterexample: for a primitive that matches nothing,
`Not(Not(S)).is_satisfied(R)` is the boolean `False` while
`S.is_satisfied(R)` is `None`, so the two results are not equal. -/
theorem c7_counterexample :
    isSatisfied (Spec.not (Spec.not (Spec.fileName ["zz"])))
        ⟨"/a/y.md", "y.md", "md", "y", ["a"]⟩ = some false
    ∧ isSatisfied (Spec.fileName ["zz"]) ⟨"/a/y.md", "y.md", "md", "y", ["a"]⟩ = none
    ∧ (some false : Option Bool) ≠ none := by
  refine ⟨?_, ?_, by decide⟩
  · rw [isSat_not, isSat_not, isSat_fileName]; decide
  · rw [isSat_fileName]; decide

/-- C7 amended: double negation returns the truth value of `S`:
`Not(Not(S)).is_satisfied(R)` is `some` of the truthiness of
`S.is_satisfied(R)`, hence equal to it whenever `S` returns an explicit
boolean, and equal in truth value always. -/
theorem c7_double_negation (s : Spec) (r : FileRecord) :
    truthy (isSatisfied (Spec.not (Spec.not s)) r) = truthy (isSatisfied s r)
    ∧ isSatisfied (Spec.not (Spec.not s)) r = some (truthy (isSatisfied s r)) := by
  rw [isSat_not, isSat_not]
  simp [truthy_some]

/-- C8: a singleton `AndSpecification([S])` and a singleton
`OrSpecification([S])` behave exactly as `S` does: their result has the
same truth value as `S.is_satisfied(R)` on every record. -/
theorem c8_singleton_identity (s : Spec) (r : FileRecord) :
    truthy (isSatisfied (Spec.and [s]) r) = truthy (isSatisfied s r)
    ∧ truthy (isSatisfied (Spec.or [s]) r) = truthy (isSatisfied s r) := by
  rw [isSat_and, isSat_or, allSat_cons, allSat_nil, anySat_cons, anySat_nil]
  simp [truthy_some]

/-- C10: the empty `AndSpecification` is vacuously satisfied and the empty
`OrSpecification` is never satisfied, matching Python's `all(())` and
`any(())`. -/
theorem c10_empty_composites (r : FileRecord) :
    isSatisfied (Spec.and []) r = some true
    ∧ isSatisfied (Spec.or []) r = some false := by
  rw [isSat_and, isSat_or, allSat_nil, anySat_nil]
  exact ⟨rfl, rfl⟩

/-- C2: `SubjectFilter.filter` yields exactly the records satisfying the
specification, in input order; the count reported after full consumption
equals the number of yielded records; an empty input gives an empty output
and a count of 0. -/
theorem c2_filter_semantics (items : List FileRecord) (spec : Spec) :
    (SubjectFilter.filter items spec).1
        = items.filter (fun i => truthy (isSatisfied spec i))
    ∧ (SubjectFilter.filter items spec).2
        = (SubjectFilter.filter items spec).1.length
    ∧ SubjectFilter.filter [] spec = ([], 0) := by
  refine ⟨?_, ?_, ?_⟩ <;> simp [SubjectFilter.filter, filterAux_eq, filterAux]

/-- C5: splitting happens on the first dot only: the example path yields
base name `"report"` and extension `"tar.gz"`; and whenever the final path
component contains a dot, the extracted record satisfies
`file_name = file_base_name ++ "." ++ extension` and has no empty folder
segment. -/
theorem c5_extraction :
    extract_file_info "/a/b/report.tar.gz" =
      some ⟨"/a/b/report.tar.gz", "report.tar.gz", "tar.gz", "report", ["a", "b"]⟩
    ∧ ∀ (p : String), hasDot (basenameChars p.data) = true →
        ∃ rec, extract_file_info p = some rec
          ∧ rec.file_name = rec.file_base_name ++ "." ++ rec.extension
          ∧ ∀ s ∈ rec.folder_names, s ≠ "" := by
  constructor
  · decide
  · intro p hp
    cases hs : splitFirstDot (basenameChars p.data) with
    | none =>
      rw [splitFirstDot_none, hp] at hs
      cases hs
    | some pr =>
      obtain ⟨base, ext⟩ := pr
      refine ⟨{ file_path := p,
                file_name := String.mk (basenameChars p.data),
                extension := String.mk ext,
                file_base_name := String.mk base,
                folder_names :=
                  ((splitOnSlash (dirnameChars p.data)).filter
                    (fun x => !x.isEmpty)).map String.mk }, ?_, ?_, ?_⟩
      · simp [extract_file_info, hs]
      · rw [splitFirstDot_append _ _ _ hs]
        exact (strMkDotApp base ext).symm
      · intro s hsmem hempty
        simp only [List.mem_map] at hsmem
        obtain ⟨x, hx, hxeq⟩ := hsmem
        rw [List.mem_filter] at hx
        rw [← hxeq] at hempty
        have hxnil : x = [] := by
          have := congrArg String.data hempty
          simpa using this
        rw [hxnil] at hx
        simp [List.isEmpty] at hx

/-- C5 witness: the general invariant applied to the concrete path
`"/x/notes.txt"`, whose final component contains a dot. -/
theorem c5_extraction_witness :
    ∃ rec, extract_file_info "/x/notes.txt" = some rec
      ∧ rec.file_name = rec.file_base_name ++ "." ++ rec.extension
      ∧ ∀ s ∈ rec.folder_names, s ≠ "" :=
  c5_extraction.2 "/x/notes.txt" (by decide)

/-- C9: when the final path component contains no dot, the one-argument
unpacking of `file_name.split('.', 1)` fails, so record extraction raises
instead of producing a record (modelled as `none`). -/
theorem c9_no_dot_hard_failure (p : String)
    (h : hasDot (basenameChars p.data) = false) :
    extract_file_info p = none := by
  have hs := (splitFirstDot_none (basenameChars p.data)).mpr h
  simp [extract_file_info, hs]

/-- C9 witness: extraction of `"/a/b/README"`, whose final component has no
dot, fails. -/
theorem c9_no_dot_hard_failure_witness :
    extract_file_info "/a/b/README" = none :=
  c9_no_dot_hard_failure "/a/b/README" (by decide)

end BGFF
